import Mathlib

/-!
A shallow embedding of `bevy_event_listener_component` (src/lib.rs).

The crate dispatches typed events to per-entity listener-list components:
`EventListener<E>` holds an `Arc<Mutex<Vec<Box<dyn HandlesEvent<E>>>>>`;
`Processor<E>` owns a `ManualEventReader<E>` cursor into the host's
`Events<E>` queue; `Processor::process_event` removes the `Events<E>`
resource from the world (`resource_scope`), snapshots the entities bearing
an `EventListener<E>` once, and for every unread event and every snapshot
entity locks the listener list and invokes each handler in order with
`(&mut World, &E, Entity)` while the guard is held; `update_event_listeners`
removes the `EventProcessors` registry resource and runs every processor;
`add_event_and_listen::<E>` registers the event queue and installs a fresh
processor, overwriting any existing registry entry for the type.

Embedding choices:
- `TypeId` and `Entity` are `Nat`; event payloads and the component type `C`
  used by mutator-form handlers are `Nat`.
- Handlers cannot be stored as literal `World → World` closures inside the
  world (negative occurrence), so they are a small action language `HAct`
  interpreted by `runAct`; its `mutator` constructor carries the wrapped
  callback as a real function `Nat → Nat → Nat`, matching
  `EventListener::mutator`'s closure shape.
- The `Arc<Mutex<..>>` storage is an explicit arc store in the world, keyed
  by arc id, holding handler list, `locked` and `poisoned` flags; cloning
  the arc is copying the id, so component replacement versus in-place
  mutation behaves as in the source.  Locking an already locked mutex from
  the single dispatch thread blocks forever: modelled as `Err.deadlock`.
  Locking a poisoned mutex makes `.lock().unwrap()` panic: `Err.poisoned`.
  `resource_scope` on a missing resource panics: `Err.missingResource`.
- `Events<E>` is external to the crate; it is modelled by its documented
  contract (append-only buffer with monotonic ids, a retained window):
  `EvQueue` keeps the id of the first retained event (`start`) and the
  retained payloads; a `ManualEventReader` cursor `c` yields the retained
  events with id ≥ c and ends at `start + items.length` (the total count).
- Dispatch additionally emits a ghost invocation log; each `LogEntry`
  records the dispatched type, payload, entity, handler index, and — as
  observations taken at the moment the handler is invoked — whether the
  event-queue resource for the dispatched type and the processor registry
  are absent from the world, and whether the listener list's guard is held.
-/

namespace ELC

abbrev TypeId := Nat
abbrev Entity := Nat

/-- Association-list lookup, modelling `HashMap::get` / resource lookup. -/
def alookup (k : Nat) : List (Nat × α) → Option α
  | [] => none
  | (k', v) :: r => if k' = k then some v else alookup k r

/-- Association-list insert-or-replace, modelling `HashMap::insert`. -/
def ainsert (k : Nat) (v : α) : List (Nat × α) → List (Nat × α)
  | [] => [(k, v)]
  | (k', v') :: r => if k' = k then (k, v) :: r else (k', v') :: ainsert k v r

/-- Association-list removal, modelling taking a resource out of the world. -/
def aerase (k : Nat) : List (Nat × α) → List (Nat × α)
  | [] => []
  | (k', v') :: r => if k' = k then r else (k', v') :: aerase k r

/-- Handler action language: the bodies of the closures the crate's examples
and constructors put into listener lists, as syntax interpreted by `runAct`.
`mutator f` is the closure built by `EventListener::mutator` (update the
owning entity's `C` component by `f` if entity and component exist);
`addToOwnList h` is a raw handler that calls `add` on the listener list of
its own entity (`world.get_mut::<EventListener<E>>` then `lock().unwrap()`
then `push`); `insertListenerOn tgt hs` is a raw handler that gives entity
`tgt` a fresh listener-list component for the dispatched type; `nop` does
nothing. -/
inductive HAct where
  | nop : HAct
  | mutator (f : Nat → Nat → Nat) : HAct
  | addToOwnList (h : HAct) : HAct
  | insertListenerOn (target : Entity) (hs : List HAct) : HAct

/-- The shared storage behind one `Arc<Mutex<Vec<Box<dyn HandlesEvent<E>>>>>`. -/
structure ListenerArc where
  handlers : List HAct
  locked : Bool
  poisoned : Bool

/-- Per-entity data: the optional `C` component used by mutator handlers and
the entity's `EventListener<E>` components, one arc id per event type. -/
structure EntityData where
  counter : Option Nat
  listeners : List (TypeId × Nat)

/-- Model of `Events<E>`: `start` is the id of the first still-retained event,
`items` the retained payloads; total event count is `start + items.length`. -/
structure EvQueue where
  start : Nat
  items : List Nat

/-- The host world: entity store, arc store (with allocation counter),
the `Events<E>` resources keyed by type id, and the optional
`EventProcessors` resource mapping each type id to its processor's
`ManualEventReader` cursor. -/
structure World where
  entities : List (Entity × EntityData)
  arcs : List (Nat × ListenerArc)
  nextArc : Nat
  eventQueues : List (TypeId × EvQueue)
  procs : Option (List (TypeId × Nat))

/-- Abnormal terminations: a panic on `.lock().unwrap()` of a poisoned
mutex, blocking forever on a mutex already held by the dispatch thread, and
the panic of `resource_scope` on a missing resource. -/
inductive Err where
  | poisoned : Err
  | deadlock : Err
  | missingResource : Err
deriving DecidableEq

/-- Ghost record of one handler invocation. -/
structure LogEntry where
  typeId : TypeId
  event : Nat
  entity : Entity
  idx : Nat
  evResAbsent : Bool
  procsResAbsent : Bool
  lockHeld : Bool
deriving DecidableEq

/-- The observation logged at the moment a handler is invoked. -/
def mkEntry (w : World) (t e ent idx arcId : Nat) : LogEntry :=
  { typeId := t, event := e, entity := ent, idx := idx,
    evResAbsent := (alookup t w.eventQueues).isNone,
    procsResAbsent := w.procs.isNone,
    lockHeld := ((alookup arcId w.arcs).map ListenerArc.locked).getD false }

/-- Interpret one handler action on the world (the body of
`HandlesEvent::on_event` for each closure shape). -/
def runAct (t e : Nat) (ent : Entity) (w : World) : HAct → Except Err World
  | .nop => .ok w
  | .mutator f =>
      match alookup ent w.entities with
      | none => .ok w
      | some ed =>
        match ed.counter with
        | none => .ok w
        | some c =>
            .ok { w with entities :=
                    ainsert ent { ed with counter := some (f e c) } w.entities }
  | .addToOwnList h =>
      match alookup ent w.entities with
      | none => .ok w
      | some ed =>
        match alookup t ed.listeners with
        | none => .ok w
        | some arcId =>
          match alookup arcId w.arcs with
          | none => .ok w
          | some arc =>
            if arc.poisoned then .error .poisoned
            else if arc.locked then .error .deadlock
            else .ok { w with arcs :=
                        ainsert arcId { arc with handlers := arc.handlers ++ [h] } w.arcs }
  | .insertListenerOn target hs =>
      let arcId := w.nextArc
      let ed := (alookup target w.entities).getD ⟨none, []⟩
      .ok { w with
              arcs := ainsert arcId ⟨hs, false, false⟩ w.arcs,
              nextArc := arcId + 1,
              entities := ainsert target
                { ed with listeners := ainsert t arcId ed.listeners } w.entities }

/-- The handler loop of `process_event` (iterate the locked list in order,
calling `handler.on_event(world, event, entity)` on each): run the handlers
captured at lock time, logging each invocation. -/
def runHandlers (t e ent arcId : Nat) (w : World) (idx : Nat) :
    List HAct → Except Err (World × List LogEntry)
  | [] => .ok (w, [])
  | h :: rest =>
      match runAct t e ent w h with
      | .error err => .error err
      | .ok w' =>
        match runHandlers t e ent arcId w' (idx + 1) rest with
        | .error err => .error err
        | .ok (w'', log) => .ok (w'', mkEntry w t e ent idx arcId :: log)

/-- The per-(event, entity) body of `Processor::process_event`:
re-fetch the listener component, clone the arc, lock it (held across the
handler loop), run the handlers, release the guard. -/
def deliverTo (t e : Nat) (ent : Entity) (w : World) :
    Except Err (World × List LogEntry) :=
  match alookup ent w.entities with
  | none => .ok (w, [])
  | some ed =>
    match alookup t ed.listeners with
    | none => .ok (w, [])
    | some arcId =>
      match alookup arcId w.arcs with
      | none => .ok (w, [])
      | some arc =>
        if arc.poisoned then .error .poisoned
        else if arc.locked then .error .deadlock
        else
          match runHandlers t e ent arcId
              { w with arcs := ainsert arcId { arc with locked := true } w.arcs }
              0 arc.handlers with
          | .error err => .error err
          | .ok (w', log) =>
            match alookup arcId w'.arcs with
            | some arc' =>
                .ok ({ w' with arcs :=
                        ainsert arcId { arc' with locked := false } w'.arcs }, log)
            | none => .ok (w', log)

/-- One event offered to every entity of the snapshot, in snapshot order. -/
def deliverAll (t e : Nat) (w : World) :
    List Entity → Except Err (World × List LogEntry)
  | [] => .ok (w, [])
  | ent :: rest =>
      match deliverTo t e ent w with
      | .error err => .error err
      | .ok (w', log1) =>
        match deliverAll t e w' rest with
        | .error err => .error err
        | .ok (w'', log2) => .ok (w'', log1 ++ log2)

/-- The unread events, in publication order, each offered to the snapshot. -/
def processEvents (t : TypeId) (ents : List Entity) (w : World) :
    List Nat → Except Err (World × List LogEntry)
  | [] => .ok (w, [])
  | e :: rest =>
      match deliverAll t e w ents with
      | .error err => .error err
      | .ok (w', log1) =>
        match processEvents t ents w' rest with
        | .error err => .error err
        | .ok (w'', log2) => .ok (w'', log1 ++ log2)

/-- The query `Query<Entity, With<EventListener<E>>>` collected once per pass. -/
def snapshot (t : TypeId) (w : World) : List Entity :=
  (w.entities.filter fun p => (alookup t p.2.listeners).isSome).map Prod.fst

/-- Model of `Processor::process_event`: take the `Events<E>` resource out of the
world, snapshot the listener entities, deliver every unread event (ids ≥
cursor within the retained window) to the snapshot, advance the cursor to
the total event count, and restore the resource.  Returns the new cursor,
world, and ghost log. -/
def processEvent (t : TypeId) (cursor : Nat) (w : World) :
    Except Err (Nat × World × List LogEntry) :=
  match alookup t w.eventQueues with
  | none => .error .missingResource
  | some q =>
    match processEvents t (snapshot t { w with eventQueues := aerase t w.eventQueues })
        { w with eventQueues := aerase t w.eventQueues }
        (q.items.drop (cursor - q.start)) with
    | .error err => .error err
    | .ok (w', log) =>
        .ok (q.start + q.items.length,
             { w' with eventQueues := ainsert t q w'.eventQueues }, log)

/-- The driver loop over `processors.map.values_mut()`, running each
registered processor once. -/
def runProcessors (w : World) :
    List (TypeId × Nat) → Except Err (List (TypeId × Nat) × World × List LogEntry)
  | [] => .ok ([], w, [])
  | (t, cursor) :: rest =>
      match processEvent t cursor w with
      | .error err => .error err
      | .ok (cursor', w', log1) =>
        match runProcessors w' rest with
        | .error err => .error err
        | .ok (rest', w'', log2) => .ok ((t, cursor') :: rest', w'', log1 ++ log2)

/-- Model of `update_event_listeners`: take the `EventProcessors` resource out of the
world, run every registered processor once, restore the resource with the
advanced cursors. -/
def update_event_listeners (w : World) : Except Err (World × List LogEntry) :=
  match w.procs with
  | none => .error .missingResource
  | some ps =>
    match runProcessors { w with procs := none } ps with
    | .error err => .error err
    | .ok (ps', w', log) => .ok ({ w' with procs := some ps' }, log)

/-- Model of `App::add_event::<E>`: create the `Events<E>` resource if absent
(idempotent on the queue). -/
def add_event (t : TypeId) (w : World) : World :=
  match alookup t w.eventQueues with
  | some _ => w
  | none => { w with eventQueues := ainsert t ⟨0, []⟩ w.eventQueues }

/-- Model of `AddEventListenerExt::add_event_and_listen::<E>`: register the queue,
then insert a fresh `Processor::<E>::default()` (cursor 0, the default
`ManualEventReader`) into the registry, creating the registry resource if
absent and overwriting any existing entry for the type. -/
def add_event_and_listen (t : TypeId) (w : World) : World :=
  let w1 := add_event t w
  { w1 with procs := some (ainsert t 0 (w1.procs.getD [])) }

namespace EventListener

/-- Model of `EventListener::new` / `default`: the empty handler list. -/
def new : List HAct := []

/-- Model of `EventListener::add`: push one raw handler; append is the only mutation. -/
def add (l : List HAct) (h : HAct) : List HAct := l ++ [h]

/-- Model of `EventListener::mutator`: a list pre-populated with one mutator-form
handler wrapping `f`. -/
def mutator (f : Nat → Nat → Nat) : List HAct := [HAct.mutator f]

end EventListener

/-! ### Association-list lemmas -/

theorem alookup_ainsert_self (k : Nat) (v : α) (l : List (Nat × α)) :
    alookup k (ainsert k v l) = some v := by
  induction l with
  | nil => simp [ainsert, alookup]
  | cons p r ih =>
      obtain ⟨k', v'⟩ := p
      by_cases h : k' = k <;> simp [ainsert, alookup, h, ih]

theorem alookup_ainsert_ne (k k' : Nat) (v : α) (l : List (Nat × α))
    (h : k' ≠ k) : alookup k' (ainsert k v l) = alookup k' l := by
  induction l with
  | nil => simp [ainsert, alookup, Ne.symm h]
  | cons p r ih =>
      obtain ⟨a, b⟩ := p
      by_cases ha : a = k
      · subst ha
        simp [ainsert, alookup, Ne.symm h]
      · simp [ainsert, alookup, ha, ih]

theorem alookup_eq_none_iff (k : Nat) (l : List (Nat × α)) :
    alookup k l = none ↔ k ∉ l.map Prod.fst := by
  induction l with
  | nil => simp [alookup]
  | cons p r ih =>
      obtain ⟨a, b⟩ := p
      by_cases ha : a = k
      · subst ha
        simp [alookup]
      · simp [alookup, ha, ih, Ne.symm ha]

theorem aerase_sublist (k : Nat) (l : List (Nat × α)) :
    (aerase k l).Sublist l := by
  induction l with
  | nil => simp [aerase]
  | cons p r ih =>
      obtain ⟨a, b⟩ := p
      by_cases ha : a = k
      · simp [aerase, ha]
      · simpa [aerase, ha] using ih.cons₂ (a, b)

theorem alookup_aerase_self (k : Nat) (l : List (Nat × α))
    (hN : (l.map Prod.fst).Nodup) : alookup k (aerase k l) = none := by
  induction l with
  | nil => simp [aerase, alookup]
  | cons p r ih =>
      obtain ⟨a, b⟩ := p
      simp only [List.map_cons, List.nodup_cons] at hN
      by_cases ha : a = k
      · subst ha
        simpa [aerase, alookup_eq_none_iff] using hN.1
      · simp [aerase, alookup, ha, ih hN.2]

theorem alookup_aerase_ne (k k' : Nat) (l : List (Nat × α))
    (h : k' ≠ k) : alookup k' (aerase k l) = alookup k' l := by
  induction l with
  | nil => simp [aerase]
  | cons p r ih =>
      obtain ⟨a, b⟩ := p
      by_cases ha : a = k
      · subst ha
        simp [aerase, alookup, Ne.symm h]
      · simp [aerase, alookup, ha, ih]

theorem ainsert_append_of_none (k : Nat) (v : α) (l : List (Nat × α))
    (h : alookup k l = none) : ainsert k v l = l ++ [(k, v)] := by
  induction l with
  | nil => simp [ainsert]
  | cons p r ih =>
      obtain ⟨a, b⟩ := p
      by_cases ha : a = k
      · simp [alookup, ha] at h
      · simp only [alookup, if_neg ha] at h
        simp [ainsert, ha, ih h]

theorem nodup_keys_restore (k : Nat) (v : α) (l : List (Nat × α))
    (hN : (l.map Prod.fst).Nodup) :
    ((ainsert k v (aerase k l)).map Prod.fst).Nodup := by
  have hsub : ((aerase k l).map Prod.fst).Sublist (l.map Prod.fst) :=
    (aerase_sublist k l).map Prod.fst
  have hN' : ((aerase k l).map Prod.fst).Nodup := hN.sublist hsub
  have hnone : alookup k (aerase k l) = none := alookup_aerase_self k l hN
  have hk : k ∉ (aerase k l).map Prod.fst := (alookup_eq_none_iff _ _).mp hnone
  rw [ainsert_append_of_none _ _ _ hnone, List.map_append]
  simp [List.nodup_append, hN', hk]

/-! ### A concrete registered world: one entity whose single listener adds
the event payload to its counter component -/

/-- The arc of `EventListener::mutator(|event, counter| *counter += *event)`. -/
def counterArc : ListenerArc := ⟨EventListener.mutator fun e c => c + e, false, false⟩

/-- A world as built by `add_event_and_listen::<E>` plus one spawned entity:
entity `ent` carries the counter component (value `c0`) and the counter
listener for type `t`; the `Events<E>` queue retains `items` starting at id
`s`; the registry holds one processor for `t` whose cursor is `oldCur`. -/
def counterWorld (t ent c0 s : Nat) (items : List Nat) (oldCur : Nat) : World :=
  { entities := [(ent, ⟨some c0, [(t, 0)]⟩)],
    arcs := [(0, counterArc)],
    nextArc := 1,
    eventQueues := [(t, ⟨s, items⟩)],
    procs := some [(t, oldCur)] }

/-- The world `counterWorld` as seen inside both `resource_scope`s: the queue for `t`
and the processor registry are out of the world. -/
def counterScoped (t ent c0 : Nat) : World :=
  ⟨[(ent, ⟨some c0, [(t, 0)]⟩)], [(0, counterArc)], 1, [], none⟩

theorem deliverTo_counter (t e ent c0 : Nat) :
    deliverTo t e ent (counterScoped t ent c0)
      = .ok (counterScoped t ent (c0 + e), [⟨t, e, ent, 0, true, true, true⟩]) := by
  simp [deliverTo, counterScoped, counterArc, EventListener.mutator, alookup, ainsert,
    runHandlers, runAct, mkEntry]

theorem processEvents_counter (t ent : Nat) (evs : List Nat) : ∀ c0 : Nat,
    processEvents t [ent] (counterScoped t ent c0) evs
      = .ok (counterScoped t ent (c0 + evs.sum),
             evs.map fun e => ⟨t, e, ent, 0, true, true, true⟩) := by
  induction evs with
  | nil => intro c0; simp [processEvents]
  | cons e rest ih =>
      intro c0
      simp [processEvents, deliverAll, deliverTo_counter, ih (c0 + e), Nat.add_assoc]

/-- C1: for any sequence of events `evs` of type `t` published in one frame
and an entity with a listener whose one handler adds the payload to its
counter, one driver pass invokes the handler exactly `evs.length` times
(the log has one entry per event), once per event in publication order (the
log's events are exactly `evs`, in order), and leaves the counter at
`c0 + evs.sum`; the processor's cursor advances past the queue. -/
theorem c1_driver_pass_counts_and_sums (t ent c0 : Nat) (evs : List Nat) :
    update_event_listeners (counterWorld t ent c0 0 evs 0)
      = .ok ({ counterWorld t ent (c0 + evs.sum) 0 evs 0 with
                 procs := some [(t, evs.length)] },
             evs.map fun e => ⟨t, e, ent, 0, true, true, true⟩) := by
  have h := processEvents_counter t ent evs c0
  simp only [counterScoped] at h
  simp [update_event_listeners, runProcessors, processEvent, counterWorld, snapshot,
    alookup, aerase, ainsert, h]

/-- C3, counterexample: in `counterWorld 0 0 0 0 [5] 1` the single event
(id 0, payload 5) was published and already consumed — the processor's
cursor is 1, the total event count — but it is still inside the retained
queue window.  Re-registering type 0 resets the cursor to 0, and the next
driver pass delivers that already-consumed event again (the log contains
it and the counter grows by 5), contradicting "events already delivered
(published and consumed) before re-registration are never redelivered". -/
theorem c3_reregistration_redelivers_consumed_event :
    alookup 0 ((counterWorld 0 0 0 0 [5] 1).procs.getD []) = some 1 ∧
    update_event_listeners (add_event_and_listen 0 (counterWorld 0 0 0 0 [5] 1))
      = .ok (counterWorld 0 0 5 0 [5] 1, [⟨0, 5, 0, 0, true, true, true⟩]) :=
  ⟨rfl, rfl⟩

/-- C3, amended: re-registering an already-registered event type installs a
fresh processor whose cursor is reset to 0, the start of the retained queue
window, and keeps the queue itself; on the new processor's first run every
event still inside the retained window is delivered — whether or not it was
consumed before re-registration — and only events that have already left
the retained window (ids below `s`, no longer in `items`) are not
redelivered: the delivery log is exactly `items`. -/
theorem c3_amended_reregistration_resets_cursor_to_window_start
    (t ent c0 s oldCur : Nat) (items : List Nat) :
    (add_event_and_listen t (counterWorld t ent c0 s items oldCur)).procs
        = some [(t, 0)] ∧
    (add_event_and_listen t (counterWorld t ent c0 s items oldCur)).eventQueues
        = [(t, ⟨s, items⟩)] ∧
    update_event_listeners (add_event_and_listen t (counterWorld t ent c0 s items oldCur))
      = .ok ({ counterWorld t ent (c0 + items.sum) s items oldCur with
                 procs := some [(t, s + items.length)] },
             items.map fun e => ⟨t, e, ent, 0, true, true, true⟩) := by
  have h := processEvents_counter t ent items c0
  simp only [counterScoped] at h
  refine ⟨?_, ?_, ?_⟩ <;>
    simp [add_event_and_listen, add_event, update_event_listeners, runProcessors,
      processEvent, counterWorld, snapshot, alookup, aerase, ainsert, h]

/-- One entity owning a listener built by `EventListener::mutator(f)` over
the optional counter component `cOpt`, with one pending event `e`. -/
def mutatorWorld (t ent : Nat) (cOpt : Option Nat) (f : Nat → Nat → Nat) (e : Nat) :
    World :=
  { entities := [(ent, ⟨cOpt, [(t, 0)]⟩)],
    arcs := [(0, ⟨EventListener.mutator f, false, false⟩)],
    nextArc := 1,
    eventQueues := [(t, ⟨0, [e]⟩)],
    procs := none }

/-- C4: dispatching an event to a mutator-form listener invokes the handler
(one log entry), and the wrapped callback runs on the component exactly when
the component is present: the counter becomes `cOpt.map (f e)` — `f e c`
when the component was `some c`, still `none` (callback skipped, no error)
when it was absent.  Moreover, when the owning entity does not exist at all,
the mutator handler silently leaves the world unchanged and raises no
error. -/
theorem c4_mutator_skips_missing_component_silently :
    (∀ t ent e cOpt (f : Nat → Nat → Nat),
        processEvent t 0 (mutatorWorld t ent cOpt f e)
          = .ok (1, mutatorWorld t ent (cOpt.map (f e)) f e,
                 [⟨t, e, ent, 0, true, true, true⟩])) ∧
    (∀ (w : World) t e ent (f : Nat → Nat → Nat),
        alookup ent w.entities = none →
        runAct t e ent w (.mutator f) = .ok w) := by
  constructor
  · intro t ent e cOpt f
    cases cOpt <;>
      simp [processEvent, mutatorWorld, snapshot, alookup, aerase, ainsert,
        processEvents, deliverAll, deliverTo, runHandlers, runAct, mkEntry,
        EventListener.mutator]
  · intro w t e ent f h
    simp [runAct, h]

/-- Witness for C4 at a concrete input: entity 9 does not exist in
`mutatorWorld 0 5 none (fun a _ => a) 3`, and the mutator handler leaves
the world unchanged without an error. -/
theorem c4_witness :
    runAct 0 3 9 (mutatorWorld 0 5 none (fun a _ => a) 3)
        (.mutator fun a _ => a)
      = .ok (mutatorWorld 0 5 none (fun a _ => a) 3) :=
  c4_mutator_skips_missing_component_silently.2
    (mutatorWorld 0 5 none (fun a _ => a) 3) 0 3 9 (fun a _ => a) rfl

/-- One entity with a counter listener for `t` whose mutex carries poison
flag `p`, with one pending event. -/
def poisonWorld (t ent c0 e : Nat) (p : Bool) : World :=
  { entities := [(ent, ⟨some c0, [(t, 0)]⟩)],
    arcs := [(0, ⟨EventListener.mutator fun x c => c + x, false, p⟩)],
    nextArc := 1,
    eventQueues := [(t, ⟨0, [e]⟩)],
    procs := none }

/-- C8: the dispatch pass aborts exactly when `.lock().unwrap()` meets a
mutex whose prior holder panicked: on the poisoned world the pass ends in
`Err.poisoned` with no recovery path, and on the identical world without
poison it completes normally — no other condition of this engine aborts the
pass.  The same `unwrap` inside `EventListener::add` (a handler pushing to
a poisoned list) panics too. -/
theorem c8_poisoned_guard_aborts_pass (t ent c0 e : Nat) (p : Bool) (h : HAct) :
    (processEvent t 0 (poisonWorld t ent c0 e p)
      = if p then .error .poisoned
        else .ok (1, poisonWorld t ent (c0 + e) e p,
                  [⟨t, e, ent, 0, true, true, true⟩])) ∧
    runAct t e ent (poisonWorld t ent c0 e true) (.addToOwnList h)
      = .error .poisoned := by
  constructor
  · cases p <;>
      simp [processEvent, poisonWorld, snapshot, alookup, aerase, ainsert,
        processEvents, deliverAll, deliverTo, runHandlers, runAct, mkEntry,
        EventListener.mutator]
  · simp [runAct, poisonWorld, alookup]

/-- One entity whose only handler calls `add` on the very listener list it
is being invoked from. -/
def selfAddWorld : World :=
  ⟨[(0, ⟨none, [(0, 0)]⟩)], [(0, ⟨[.addToOwnList .nop], false, false⟩)], 1,
   [(0, ⟨0, [1]⟩)], none⟩

/-- C7, counterexample: `process_event` holds the listener list's mutex
guard across `handler.on_event`, so a handler that adds a handler to the
same list it is being invoked from re-locks the held mutex and the dispatch
blocks forever — refuting "exclusive access ... is released before (or
safely around) each handler callback, so that ... adding a handler to the
same listener list it is being invoked from does not deadlock". -/
theorem c7_self_add_deadlocks :
    processEvent 0 0 selfAddWorld = .error .deadlock := rfl

/-- One entity whose listener holds a benign mutator handler followed by a
handler that adds to its own list, with one pending event. -/
def selfAddAfterWorld (t ent c0 e : Nat) (f : Nat → Nat → Nat) (h : HAct) : World :=
  { entities := [(ent, ⟨some c0, [(t, 0)]⟩)],
    arcs := [(0, ⟨[.mutator f, .addToOwnList h], false, false⟩)],
    nextArc := 1,
    eventQueues := [(t, ⟨0, [e]⟩)],
    procs := none }

/-- C7, amended: the guard is *held* across every handler callback — each
logged invocation observes the lock held (`lockHeld = true`) — so a
callback that adds to the same listener list it is invoked from deadlocks
on the list's guard (even when a benign handler ran before it), while
callbacks that do not re-enter the held list complete normally. -/
theorem c7_amended_guard_held_across_callbacks
    (t ent c0 e : Nat) (f : Nat → Nat → Nat) (h : HAct) :
    processEvent t 0 (selfAddAfterWorld t ent c0 e f h) = .error .deadlock ∧
    processEvent t 0 (mutatorWorld t ent (some c0) f e)
      = .ok (1, mutatorWorld t ent (some (f e c0)) f e,
             [⟨t, e, ent, 0, true, true, true⟩]) := by
  constructor <;>
    simp [processEvent, selfAddAfterWorld, mutatorWorld, snapshot, alookup, aerase,
      ainsert, processEvents, deliverAll, deliverTo, runHandlers, runAct, mkEntry,
      EventListener.mutator]

/-! ### C2: handlers run in the order they were appended via `add` -/

theorem foldl_add_eq_append (fs : List (Nat → Nat → Nat)) :
    ∀ acc : List HAct,
      fs.foldl (fun l f => EventListener.add l (.mutator f)) acc
        = acc ++ fs.map HAct.mutator := by
  induction fs with
  | nil => intro acc; simp
  | cons f rest ih =>
      intro acc
      rw [List.foldl_cons, ih]
      simp [EventListener.add]

/-- One entity whose listener list is built from `new()` by chained `add`
calls, one per element of `fs` in order, with one pending event. -/
def chainedWorld (t ent c0 : Nat) (fs : List (Nat → Nat → Nat)) (e : Nat) : World :=
  { entities := [(ent, ⟨some c0, [(t, 0)]⟩)],
    arcs := [(0, ⟨fs.foldl (fun l f => EventListener.add l (.mutator f))
                     EventListener.new, false, false⟩)],
    nextArc := 1,
    eventQueues := [(t, ⟨0, [e]⟩)],
    procs := none }

theorem runHandlers_mutators (t e ent : Nat) (full : List HAct)
    (gs : List (Nat → Nat → Nat)) : ∀ idx c : Nat,
    runHandlers t e ent 0
        ⟨[(ent, ⟨some c, [(t, 0)]⟩)], [(0, ⟨full, true, false⟩)], 1, [], none⟩
        idx (gs.map HAct.mutator)
      = .ok (⟨[(ent, ⟨some (gs.foldl (fun a g => g e a) c), [(t, 0)]⟩)],
              [(0, ⟨full, true, false⟩)], 1, [], none⟩,
             (List.range' idx gs.length).map fun i => ⟨t, e, ent, i, true, true, true⟩) := by
  induction gs with
  | nil => intro idx c; simp [runHandlers]
  | cons g rest ih =>
      intro idx c
      simp [runHandlers, runAct, mkEntry, alookup, ainsert, ih (idx + 1) (g e c),
        List.range']

/-- C2: for a listener list built by chained `add` calls (append is the only
mutation `EventListener` exposes) and a dispatched event, the handlers are
invoked exactly in the order they were appended, however many there are:
the invocation log records handler indices `0, 1, …, fs.length - 1` in that
order, and the counter is the left fold of the callbacks in append order. -/
theorem c2_handlers_run_in_append_order
    (t ent c0 e : Nat) (fs : List (Nat → Nat → Nat)) :
    processEvent t 0 (chainedWorld t ent c0 fs e)
      = .ok (1, chainedWorld t ent (fs.foldl (fun a g => g e a) c0) fs e,
             (List.range fs.length).map fun i => ⟨t, e, ent, i, true, true, true⟩) := by
  have h := runHandlers_mutators t e ent (fs.map HAct.mutator) fs 0 c0
  simp [processEvent, chainedWorld, snapshot, alookup, aerase, ainsert,
    processEvents, deliverAll, deliverTo, runHandlers,
    foldl_add_eq_append, EventListener.new, h, List.range_eq_range']

/-! ### C5: entities without a listener list for the dispatched type -/

/-- Entity `ent1` carries a counter listener for `t`; entity `ent2` carries
arbitrary data `d2` (possibly listeners for other types, or none at all —
e.g. its listener list for `t` was removed before the pass). -/
def bystanderWorld (t ent1 ent2 c0 e : Nat) (d2 : EntityData) : World :=
  { entities := [(ent1, ⟨some c0, [(t, 0)]⟩), (ent2, d2)],
    arcs := [(0, counterArc)],
    nextArc := 1,
    eventQueues := [(t, ⟨0, [e]⟩)],
    procs := none }

/-- C5: a dispatch pass over type `t` invokes handlers only on entities that
bear a listener list for `t`: the pass completes without any error, the
bystander entity (no listener for `t`, e.g. removed before the pass) is
left untouched and receives no invocation — every log entry names `ent1`,
never `ent2`. -/
theorem c5_no_listener_no_invocation_no_error
    (t ent1 ent2 c0 e : Nat) (d2 : EntityData)
    (hne : ent1 ≠ ent2) (hno : alookup t d2.listeners = none) :
    processEvent t 0 (bystanderWorld t ent1 ent2 c0 e d2)
      = .ok (1, bystanderWorld t ent1 ent2 (c0 + e) e d2,
             [⟨t, e, ent1, 0, true, true, true⟩]) ∧
    ∀ L ∈ ([⟨t, e, ent1, 0, true, true, true⟩] : List LogEntry),
      L.entity ≠ ent2 := by
  constructor
  · simp [processEvent, bystanderWorld, snapshot, alookup, aerase, ainsert,
      processEvents, deliverAll, deliverTo, runHandlers, runAct, mkEntry,
      counterArc, EventListener.mutator, hno, hne]
  · intro L hL
    simp only [List.mem_singleton] at hL
    subst hL
    exact hne

/-- Witness for C5 at a concrete input: entity 1 has no listeners at all. -/
theorem c5_witness :
    processEvent 0 0 (bystanderWorld 0 0 1 0 7 ⟨none, []⟩)
      = .ok (1, bystanderWorld 0 0 1 7 7 ⟨none, []⟩,
             [⟨0, 7, 0, 0, true, true, true⟩]) ∧
    ∀ L ∈ ([⟨0, 7, 0, 0, true, true, true⟩] : List LogEntry), L.entity ≠ 1 :=
  c5_no_listener_no_invocation_no_error 0 0 1 0 7 ⟨none, []⟩ (by decide) rfl

/-! ### C6: at most one processor per event type; re-registration overwrites -/

theorem mem_keys_ainsert (k k' : Nat) (v : α) (l : List (Nat × α)) :
    k' ∈ (ainsert k v l).map Prod.fst ↔ k' = k ∨ k' ∈ l.map Prod.fst := by
  induction l with
  | nil => simp [ainsert]
  | cons p r ih =>
      obtain ⟨a, b⟩ := p
      by_cases ha : a = k
      · subst ha
        simp [ainsert]
        try tauto
      · simp [ainsert, ha, ih]
        try tauto

theorem nodup_keys_ainsert (k : Nat) (v : α) (l : List (Nat × α))
    (hN : (l.map Prod.fst).Nodup) : ((ainsert k v l).map Prod.fst).Nodup := by
  induction l with
  | nil => simp [ainsert]
  | cons p r ih =>
      obtain ⟨a, b⟩ := p
      simp only [List.map_cons, List.nodup_cons] at hN
      by_cases ha : a = k
      · subst ha
        simp [ainsert, List.nodup_cons, hN.1, hN.2]
      · simp only [ainsert, if_neg ha, List.map_cons, List.nodup_cons]
        refine ⟨fun hmem => ?_, ih hN.2⟩
        rcases (mem_keys_ainsert k a v r).mp hmem with h1 | h2
        · exact ha h1
        · exact hN.1 h2

theorem ainsert_length (k : Nat) (v : α) (l : List (Nat × α)) :
    (ainsert k v l).length
      = if (alookup k l).isSome then l.length else l.length + 1 := by
  induction l with
  | nil => simp [ainsert, alookup]
  | cons p r ih =>
      obtain ⟨a, b⟩ := p
      by_cases ha : a = k
      · subst ha
        simp [ainsert, alookup]
      · simp only [ainsert, if_neg ha, alookup, List.length_cons, ih]
        by_cases hl : (alookup k r).isSome <;> simp [hl]

theorem add_event_procs (t : Nat) (w : World) : (add_event t w).procs = w.procs := by
  unfold add_event
  cases alookup t w.eventQueues <;> rfl

/-- C6: the processor registry maps each event-type identity to at most one
processor.  Registering type `t` on a registry `ps0` with distinct keys
yields exactly `ainsert t 0 ps0`: the entry for `t` is the fresh processor
with cursor 0 (the old processor and its cursor are discarded), all other
entries are unchanged, keys stay distinct, and the table does not grow when
`t` was already present — the entry is overwritten, not duplicated. -/
theorem c6_registry_at_most_one_processor_per_type
    (t : Nat) (w : World) (ps0 : List (TypeId × Nat))
    (hw : w.procs = some ps0) (hN : (ps0.map Prod.fst).Nodup) :
    (add_event_and_listen t w).procs = some (ainsert t 0 ps0) ∧
    alookup t (ainsert t 0 ps0) = some 0 ∧
    (∀ t', t' ≠ t → alookup t' (ainsert t 0 ps0) = alookup t' ps0) ∧
    ((ainsert t 0 ps0).map Prod.fst).Nodup ∧
    (ainsert t 0 ps0).length
      = (if (alookup t ps0).isSome then ps0.length else ps0.length + 1) := by
  refine ⟨?_, alookup_ainsert_self t 0 ps0,
          fun t' h => alookup_ainsert_ne t t' 0 ps0 h,
          nodup_keys_ainsert t 0 ps0 hN, ainsert_length t 0 ps0⟩
  simp [add_event_and_listen, add_event_procs, hw]

/-- Witness for C6 at a concrete input: re-registering type 0 over a
registry already holding a processor for type 0 with cursor 5. -/
theorem c6_witness :
    (add_event_and_listen 0 (counterWorld 0 0 0 0 [] 5)).procs
        = some (ainsert 0 0 [(0, 5)]) ∧
    alookup 0 (ainsert 0 0 [(0, 5)]) = some 0 ∧
    (∀ t', t' ≠ 0 → alookup t' (ainsert 0 0 [(0, 5)]) = alookup t' [(0, 5)]) ∧
    ((ainsert 0 0 [(0, 5)]).map Prod.fst).Nodup ∧
    (ainsert 0 0 [(0, 5)]).length
      = (if (alookup 0 [(0, 5)]).isSome then [(0, 5)].length
         else [(0, 5)].length + 1) :=
  c6_registry_at_most_one_processor_per_type 0 (counterWorld 0 0 0 0 [] 5)
    [(0, 5)] rfl (by decide)

/-! ### C9: the entity set is snapshotted once, before the first event -/

theorem runHandlers_log_entity (t e ent arcId : Nat) (hs : List HAct) :
    ∀ w idx w' log, runHandlers t e ent arcId w idx hs = .ok (w', log) →
      ∀ L ∈ log, L.entity = ent := by
  induction hs with
  | nil =>
      intro w idx w' log h L hL
      simp only [runHandlers, Except.ok.injEq, Prod.mk.injEq] at h
      obtain ⟨-, hlog⟩ := h
      subst hlog
      simp at hL
  | cons a rest ih =>
      intro w idx w' log h L hL
      simp only [runHandlers] at h
      cases ha : runAct t e ent w a with
      | error err => simp only [ha] at h; exact Except.noConfusion h
      | ok w1 =>
          simp only [ha] at h
          cases hr : runHandlers t e ent arcId w1 (idx + 1) rest with
          | error err => simp only [hr] at h; exact Except.noConfusion h
          | ok p =>
              obtain ⟨w2, log2⟩ := p
              simp only [hr, Except.ok.injEq, Prod.mk.injEq] at h
              obtain ⟨-, hlog⟩ := h
              subst hlog
              rcases List.mem_cons.mp hL with h1 | h2
              · subst h1
                rfl
              · exact ih w1 (idx + 1) w2 log2 hr L h2

theorem deliverTo_log_entity (t e ent : Nat) (w w' : World) (log : List LogEntry)
    (h : deliverTo t e ent w = .ok (w', log)) : ∀ L ∈ log, L.entity = ent := by
  unfold deliverTo at h
  cases h1 : alookup ent w.entities with
  | none =>
      simp only [h1, Except.ok.injEq, Prod.mk.injEq] at h
      obtain ⟨-, hlog⟩ := h
      subst hlog
      simp
  | some ed =>
      simp only [h1] at h
      cases h2 : alookup t ed.listeners with
      | none =>
          simp only [h2, Except.ok.injEq, Prod.mk.injEq] at h
          obtain ⟨-, hlog⟩ := h
          subst hlog
          simp
      | some arcId =>
          simp only [h2] at h
          cases h3 : alookup arcId w.arcs with
          | none =>
              simp only [h3, Except.ok.injEq, Prod.mk.injEq] at h
              obtain ⟨-, hlog⟩ := h
              subst hlog
              simp
          | some arc =>
              simp only [h3] at h
              cases hp : arc.poisoned with
              | true => rw [hp] at h; simp at h
              | false =>
                rw [hp] at h
                cases hl : arc.locked with
                | true => rw [hl] at h; simp at h
                | false =>
                  rw [hl] at h
                  simp only [Bool.false_eq_true, if_false] at h
                  cases h4 : runHandlers t e ent arcId
                      { w with arcs := ainsert arcId ⟨arc.handlers, true, false⟩ w.arcs }
                      0 arc.handlers with
                  | error err => simp only [h4] at h; exact Except.noConfusion h
                  | ok p =>
                      obtain ⟨w1, log1⟩ := p
                      simp only [h4] at h
                      cases h5 : alookup arcId w1.arcs with
                      | none =>
                          simp only [h5, Except.ok.injEq, Prod.mk.injEq] at h
                          obtain ⟨-, hlog⟩ := h
                          subst hlog
                          exact runHandlers_log_entity t e ent arcId arc.handlers _ 0 w1 _ h4
                      | some arc' =>
                          simp only [h5, Except.ok.injEq, Prod.mk.injEq] at h
                          obtain ⟨-, hlog⟩ := h
                          subst hlog
                          exact runHandlers_log_entity t e ent arcId arc.handlers _ 0 w1 _ h4

theorem deliverAll_log_entity (t e : Nat) (ents : List Entity) :
    ∀ w w' log, deliverAll t e w ents = .ok (w', log) →
      ∀ L ∈ log, L.entity ∈ ents := by
  induction ents with
  | nil =>
      intro w w' log h L hL
      simp only [deliverAll, Except.ok.injEq, Prod.mk.injEq] at h
      obtain ⟨-, hlog⟩ := h
      subst hlog
      simp at hL
  | cons ent rest ih =>
      intro w w' log h L hL
      simp only [deliverAll] at h
      cases h1 : deliverTo t e ent w with
      | error err => simp only [h1] at h; exact Except.noConfusion h
      | ok p =>
          obtain ⟨w1, log1⟩ := p
          simp only [h1] at h
          cases h2 : deliverAll t e w1 rest with
          | error err => simp only [h2] at h; exact Except.noConfusion h
          | ok p2 =>
              obtain ⟨w2, log2⟩ := p2
              simp only [h2, Except.ok.injEq, Prod.mk.injEq] at h
              obtain ⟨-, hlog⟩ := h
              subst hlog
              rcases List.mem_append.mp hL with hm | hm
              · exact (deliverTo_log_entity t e ent w w1 log1 h1 L hm) ▸
                  List.mem_cons_self ent rest
              · exact List.mem_cons_of_mem ent (ih w1 w2 log2 h2 L hm)

theorem processEvents_log_entity (t : Nat) (ents : List Entity) (evs : List Nat) :
    ∀ w w' log, processEvents t ents w evs = .ok (w', log) →
      ∀ L ∈ log, L.entity ∈ ents := by
  induction evs with
  | nil =>
      intro w w' log h L hL
      simp only [processEvents, Except.ok.injEq, Prod.mk.injEq] at h
      obtain ⟨-, hlog⟩ := h
      subst hlog
      simp at hL
  | cons e rest ih =>
      intro w w' log h L hL
      simp only [processEvents] at h
      cases h1 : deliverAll t e w ents with
      | error err => simp only [h1] at h; exact Except.noConfusion h
      | ok p =>
          obtain ⟨w1, log1⟩ := p
          simp only [h1] at h
          cases h2 : processEvents t ents w1 rest with
          | error err => simp only [h2] at h; exact Except.noConfusion h
          | ok p2 =>
              obtain ⟨w2, log2⟩ := p2
              simp only [h2, Except.ok.injEq, Prod.mk.injEq] at h
              obtain ⟨-, hlog⟩ := h
              subst hlog
              rcases List.mem_append.mp hL with hm | hm
              · exact deliverAll_log_entity t e ents w w1 log1 h1 L hm
              · exact ih w1 w2 log2 h2 L hm

/-- A world whose only listening entity's handler gives entity 1 a listener
list for type 0, with two pending events. -/
def gainWorld : World :=
  ⟨[(0, ⟨none, [(0, 0)]⟩)], [(0, ⟨[.insertListenerOn 1 [.nop]], false, false⟩)], 1,
   [(0, ⟨0, [10, 20]⟩)], none⟩

/-- C9: within one pass over type `t` the delivery set is the snapshot of
entities bearing a listener list for `t` taken before the first event: every
logged invocation names a snapshot entity, for every event of the pass.
Concretely, in `gainWorld` the first event's handler gives entity 1 a
listener for type 0, yet both events of the pass are delivered only to
entity 0, while the final world shows entity 1 did gain its listener
during the pass. -/
theorem c9_snapshot_taken_once_before_first_event :
    (∀ (t cursor : Nat) (w : World) (c' : Nat) (w' : World) (log : List LogEntry),
        processEvent t cursor w = .ok (c', w', log) →
        ∀ L ∈ log, L.entity ∈ snapshot t w) ∧
    (processEvent 0 0 gainWorld).map
        (fun r => (r.2.2.map fun L => (L.entity, L.event),
                   (alookup 1 r.2.1.entities).map EntityData.listeners))
      = .ok ([(0, 10), (0, 20)], some [(0, 2)]) := by
  constructor
  · intro t cursor w c' w' log h L hL
    unfold processEvent at h
    cases hq : alookup t w.eventQueues with
    | none => simp only [hq] at h; exact Except.noConfusion h
    | some q =>
        simp only [hq] at h
        cases hp : processEvents t
            (snapshot t { w with eventQueues := aerase t w.eventQueues })
            { w with eventQueues := aerase t w.eventQueues }
            (q.items.drop (cursor - q.start)) with
        | error err => simp only [hp] at h; exact Except.noConfusion h
        | ok p =>
            obtain ⟨w1, log1⟩ := p
            simp only [hp, Except.ok.injEq, Prod.mk.injEq] at h
            obtain ⟨-, -, hlog⟩ := h
            subst hlog
            have hsnap : snapshot t { w with eventQueues := aerase t w.eventQueues }
                = snapshot t w := rfl
            exact hsnap ▸ processEvents_log_entity t _ _ _ w1 _ hp L hL
  · rfl

/-- Witness for C9 at a concrete input: the first logged invocation of the
`gainWorld` pass names an entity of the pre-pass snapshot. -/
theorem c9_witness :
    (⟨0, 10, 0, 0, true, true, true⟩ : LogEntry).entity ∈ snapshot 0 gainWorld :=
  c9_snapshot_taken_once_before_first_event.1 0 0 gainWorld _ _ _ rfl
    ⟨0, 10, 0, 0, true, true, true⟩ (by decide)

/-! ### C10: both resources are out of the world during handler invocations
and restored afterwards -/

theorem runAct_preserves (a : HAct) (t e : Nat) (ent : Entity) (w w' : World)
    (h : runAct t e ent w a = .ok w') :
    w'.eventQueues = w.eventQueues ∧ w'.procs = w.procs := by
  cases a with
  | nop =>
      simp only [runAct, Except.ok.injEq] at h
      subst h
      exact ⟨rfl, rfl⟩
  | mutator f =>
      simp only [runAct] at h
      cases h1 : alookup ent w.entities with
      | none => simp only [h1, Except.ok.injEq] at h; subst h; exact ⟨rfl, rfl⟩
      | some ed =>
          simp only [h1] at h
          cases h2 : ed.counter with
          | none => simp only [h2, Except.ok.injEq] at h; subst h; exact ⟨rfl, rfl⟩
          | some c => simp only [h2, Except.ok.injEq] at h; subst h; exact ⟨rfl, rfl⟩
  | addToOwnList hh =>
      simp only [runAct] at h
      cases h1 : alookup ent w.entities with
      | none => simp only [h1, Except.ok.injEq] at h; subst h; exact ⟨rfl, rfl⟩
      | some ed =>
          simp only [h1] at h
          cases h2 : alookup t ed.listeners with
          | none => simp only [h2, Except.ok.injEq] at h; subst h; exact ⟨rfl, rfl⟩
          | some arcId =>
              simp only [h2] at h
              cases h3 : alookup arcId w.arcs with
              | none => simp only [h3, Except.ok.injEq] at h; subst h; exact ⟨rfl, rfl⟩
              | some arc =>
                  simp only [h3] at h
                  cases hp : arc.poisoned with
                  | true => rw [hp] at h; simp at h
                  | false =>
                      rw [hp] at h
                      cases hl : arc.locked with
                      | true => rw [hl] at h; simp at h
                      | false =>
                          rw [hl] at h
                          simp only [Bool.false_eq_true, if_false, Except.ok.injEq] at h
                          subst h
                          exact ⟨rfl, rfl⟩
  | insertListenerOn target hs =>
      simp only [runAct, Except.ok.injEq] at h
      subst h
      exact ⟨rfl, rfl⟩

theorem runHandlers_spec (t e ent arcId : Nat) (hs : List HAct) :
    ∀ w idx w' log, runHandlers t e ent arcId w idx hs = .ok (w', log) →
      w'.eventQueues = w.eventQueues ∧ w'.procs = w.procs ∧
      ∀ L ∈ log, L.evResAbsent = (alookup t w.eventQueues).isNone ∧
                 L.procsResAbsent = w.procs.isNone := by
  induction hs with
  | nil =>
      intro w idx w' log h
      simp only [runHandlers, Except.ok.injEq, Prod.mk.injEq] at h
      obtain ⟨hw, hlog⟩ := h
      subst hw
      subst hlog
      exact ⟨rfl, rfl, by simp⟩
  | cons a rest ih =>
      intro w idx w' log h
      simp only [runHandlers] at h
      cases ha : runAct t e ent w a with
      | error err => simp only [ha] at h; exact Except.noConfusion h
      | ok w1 =>
          simp only [ha] at h
          cases hr : runHandlers t e ent arcId w1 (idx + 1) rest with
          | error err => simp only [hr] at h; exact Except.noConfusion h
          | ok p =>
              obtain ⟨w2, log2⟩ := p
              simp only [hr, Except.ok.injEq, Prod.mk.injEq] at h
              obtain ⟨hw, hlog⟩ := h
              subst hw
              subst hlog
              obtain ⟨hq1, hp1⟩ := runAct_preserves a t e ent w w1 ha
              obtain ⟨hq2, hp2, hflags⟩ := ih w1 (idx + 1) _ _ hr
              refine ⟨hq2.trans hq1, hp2.trans hp1, ?_⟩
              intro L hL
              rcases List.mem_cons.mp hL with h1 | h2
              · subst h1
                exact ⟨rfl, rfl⟩
              · have hf := hflags L h2
                rwa [hq1, hp1] at hf

theorem deliverTo_spec (t e : Nat) (ent : Entity) (w w' : World)
    (log : List LogEntry) (h : deliverTo t e ent w = .ok (w', log)) :
    w'.eventQueues = w.eventQueues ∧ w'.procs = w.procs ∧
    ∀ L ∈ log, L.evResAbsent = (alookup t w.eventQueues).isNone ∧
               L.procsResAbsent = w.procs.isNone := by
  unfold deliverTo at h
  cases h1 : alookup ent w.entities with
  | none =>
      simp only [h1, Except.ok.injEq, Prod.mk.injEq] at h
      obtain ⟨hw, hlog⟩ := h
      subst hw
      subst hlog
      exact ⟨rfl, rfl, by simp⟩
  | some ed =>
      simp only [h1] at h
      cases h2 : alookup t ed.listeners with
      | none =>
          simp only [h2, Except.ok.injEq, Prod.mk.injEq] at h
          obtain ⟨hw, hlog⟩ := h
          subst hw
          subst hlog
          exact ⟨rfl, rfl, by simp⟩
      | some arcId =>
          simp only [h2] at h
          cases h3 : alookup arcId w.arcs with
          | none =>
              simp only [h3, Except.ok.injEq, Prod.mk.injEq] at h
              obtain ⟨hw, hlog⟩ := h
              subst hw
              subst hlog
              exact ⟨rfl, rfl, by simp⟩
          | some arc =>
              simp only [h3] at h
              cases hp : arc.poisoned with
              | true => rw [hp] at h; simp at h
              | false =>
                rw [hp] at h
                cases hl : arc.locked with
                | true => rw [hl] at h; simp at h
                | false =>
                  rw [hl] at h
                  simp only [Bool.false_eq_true, if_false] at h
                  cases h4 : runHandlers t e ent arcId
                      { w with arcs := ainsert arcId ⟨arc.handlers, true, false⟩ w.arcs }
                      0 arc.handlers with
                  | error err => simp only [h4] at h; exact Except.noConfusion h
                  | ok p =>
                      obtain ⟨w1, log1⟩ := p
                      simp only [h4] at h
                      obtain ⟨hq, hpr, hflags⟩ := runHandlers_spec t e ent arcId
                        arc.handlers _ 0 w1 log1 h4
                      cases h5 : alookup arcId w1.arcs with
                      | none =>
                          simp only [h5, Except.ok.injEq, Prod.mk.injEq] at h
                          obtain ⟨hw, hlog⟩ := h
                          subst hw
                          subst hlog
                          exact ⟨hq, hpr, hflags⟩
                      | some arc' =>
                          simp only [h5, Except.ok.injEq, Prod.mk.injEq] at h
                          obtain ⟨hw, hlog⟩ := h
                          subst hw
                          subst hlog
                          exact ⟨hq, hpr, hflags⟩

theorem deliverAll_spec (t e : Nat) (ents : List Entity) :
    ∀ w w' log, deliverAll t e w ents = .ok (w', log) →
      w'.eventQueues = w.eventQueues ∧ w'.procs = w.procs ∧
      ∀ L ∈ log, L.evResAbsent = (alookup t w.eventQueues).isNone ∧
                 L.procsResAbsent = w.procs.isNone := by
  induction ents with
  | nil =>
      intro w w' log h
      simp only [deliverAll, Except.ok.injEq, Prod.mk.injEq] at h
      obtain ⟨hw, hlog⟩ := h
      subst hw
      subst hlog
      exact ⟨rfl, rfl, by simp⟩
  | cons ent rest ih =>
      intro w w' log h
      simp only [deliverAll] at h
      cases h1 : deliverTo t e ent w with
      | error err => simp only [h1] at h; exact Except.noConfusion h
      | ok p =>
          obtain ⟨w1, log1⟩ := p
          simp only [h1] at h
          cases h2 : deliverAll t e w1 rest with
          | error err => simp only [h2] at h; exact Except.noConfusion h
          | ok p2 =>
              obtain ⟨w2, log2⟩ := p2
              simp only [h2, Except.ok.injEq, Prod.mk.injEq] at h
              obtain ⟨hw, hlog⟩ := h
              subst hw
              subst hlog
              obtain ⟨hq1, hp1, hf1⟩ := deliverTo_spec t e ent w w1 log1 h1
              obtain ⟨hq2, hp2, hf2⟩ := ih w1 _ _ h2
              refine ⟨hq2.trans hq1, hp2.trans hp1, ?_⟩
              intro L hL
              rcases List.mem_append.mp hL with hm | hm
              · exact hf1 L hm
              · have hf := hf2 L hm
                rwa [hq1, hp1] at hf

theorem processEvents_spec (t : Nat) (ents : List Entity) (evs : List Nat) :
    ∀ w w' log, processEvents t ents w evs = .ok (w', log) →
      w'.eventQueues = w.eventQueues ∧ w'.procs = w.procs ∧
      ∀ L ∈ log, L.evResAbsent = (alookup t w.eventQueues).isNone ∧
                 L.procsResAbsent = w.procs.isNone := by
  induction evs with
  | nil =>
      intro w w' log h
      simp only [processEvents, Except.ok.injEq, Prod.mk.injEq] at h
      obtain ⟨hw, hlog⟩ := h
      subst hw
      subst hlog
      exact ⟨rfl, rfl, by simp⟩
  | cons e rest ih =>
      intro w w' log h
      simp only [processEvents] at h
      cases h1 : deliverAll t e w ents with
      | error err => simp only [h1] at h; exact Except.noConfusion h
      | ok p =>
          obtain ⟨w1, log1⟩ := p
          simp only [h1] at h
          cases h2 : processEvents t ents w1 rest with
          | error err => simp only [h2] at h; exact Except.noConfusion h
          | ok p2 =>
              obtain ⟨w2, log2⟩ := p2
              simp only [h2, Except.ok.injEq, Prod.mk.injEq] at h
              obtain ⟨hw, hlog⟩ := h
              subst hw
              subst hlog
              obtain ⟨hq1, hp1, hf1⟩ := deliverAll_spec t e ents w w1 log1 h1
              obtain ⟨hq2, hp2, hf2⟩ := ih w1 _ _ h2
              refine ⟨hq2.trans hq1, hp2.trans hp1, ?_⟩
              intro L hL
              rcases List.mem_append.mp hL with hm | hm
              · exact hf1 L hm
              · have hf := hf2 L hm
                rwa [hq1, hp1] at hf

theorem processEvent_spec (t cursor : Nat) (w : World) (c' : Nat) (w' : World)
    (log : List LogEntry) (hN : (w.eventQueues.map Prod.fst).Nodup)
    (h : processEvent t cursor w = .ok (c', w', log)) :
    (∀ t', alookup t' w'.eventQueues = alookup t' w.eventQueues) ∧
    (w'.eventQueues.map Prod.fst).Nodup ∧
    w'.procs = w.procs ∧
    ∀ L ∈ log, L.evResAbsent = true ∧ L.procsResAbsent = w.procs.isNone := by
  unfold processEvent at h
  cases hq : alookup t w.eventQueues with
  | none => simp only [hq] at h; exact Except.noConfusion h
  | some q =>
      simp only [hq] at h
      cases hp : processEvents t
          (snapshot t { w with eventQueues := aerase t w.eventQueues })
          { w with eventQueues := aerase t w.eventQueues }
          (q.items.drop (cursor - q.start)) with
      | error err => simp only [hp] at h; exact Except.noConfusion h
      | ok p =>
          obtain ⟨w1, log1⟩ := p
          simp only [hp, Except.ok.injEq, Prod.mk.injEq] at h
          obtain ⟨-, hw, hlog⟩ := h
          subst hw
          subst hlog
          obtain ⟨hq1, hp1, hf1⟩ := processEvents_spec t _ _ _ w1 log1 hp
          have hq1' : w1.eventQueues = aerase t w.eventQueues := hq1
          have hp1' : w1.procs = w.procs := hp1
          have herase : alookup t (aerase t w.eventQueues) = none :=
        alookup_aerase_self t w.eventQueues hN
          refine ⟨?_, ?_, hp1', ?_⟩
          · intro t'
            by_cases ht : t' = t
            · subst ht
              rw [hq1']
              rw [alookup_ainsert_self, hq]
            · rw [hq1']
              rw [alookup_ainsert_ne t t' q _ ht, alookup_aerase_ne t t' _ ht]
          · rw [hq1']
            exact nodup_keys_restore t q w.eventQueues hN
          · intro L hL
            have hf := hf1 L hL
            simp only [herase, Option.isNone_none] at hf
            exact hf

theorem runProcessors_spec (ps : List (TypeId × Nat)) :
    ∀ w ps' w' log, (w.eventQueues.map Prod.fst).Nodup →
      runProcessors w ps = .ok (ps', w', log) →
      (∀ t', alookup t' w'.eventQueues = alookup t' w.eventQueues) ∧
      (w'.eventQueues.map Prod.fst).Nodup ∧
      w'.procs = w.procs ∧
      ∀ L ∈ log, L.evResAbsent = true ∧ L.procsResAbsent = w.procs.isNone := by
  induction ps with
  | nil =>
      intro w ps' w' log hN h
      simp only [runProcessors, Except.ok.injEq, Prod.mk.injEq] at h
      obtain ⟨-, hw, hlog⟩ := h
      subst hw
      subst hlog
      exact ⟨fun t' => rfl, hN, rfl, by simp⟩
  | cons pc rest ih =>
      intro w ps' w' log hN h
      obtain ⟨t, cursor⟩ := pc
      simp only [runProcessors] at h
      cases h1 : processEvent t cursor w with
      | error err => simp only [h1] at h; exact Except.noConfusion h
      | ok p =>
          obtain ⟨c1, w1, log1⟩ := p
          simp only [h1] at h
          cases h2 : runProcessors w1 rest with
          | error err => simp only [h2] at h; exact Except.noConfusion h
          | ok p2 =>
              obtain ⟨rest', w2, log2⟩ := p2
              simp only [h2, Except.ok.injEq, Prod.mk.injEq] at h
              obtain ⟨-, hw, hlog⟩ := h
              subst hw
              subst hlog
              obtain ⟨hq1, hN1, hp1, hf1⟩ := processEvent_spec t cursor w c1 w1 log1 hN h1
              obtain ⟨hq2, hN2, hp2, hf2⟩ := ih w1 _ _ _ hN1 h2
              refine ⟨fun t' => (hq2 t').trans (hq1 t'), hN2, hp2.trans hp1, ?_⟩
              intro L hL
              rcases List.mem_append.mp hL with hm | hm
              · exact hf1 L hm
              · have hf := hf2 L hm
                rwa [hp1] at hf

/-- C10: during a driver pass every handler invocation observes a world
from which both the `Events<E>` resource of the type being dispatched and
the `EventProcessors` registry resource have been removed (`resource_scope`
holds them outside the world), so a handler cannot reach either through the
world; once the pass completes, the registry is back in the world and every
event queue is restored unchanged. -/
theorem c10_resources_absent_during_dispatch_and_restored
    (w w' : World) (log : List LogEntry)
    (hN : (w.eventQueues.map Prod.fst).Nodup)
    (h : update_event_listeners w = .ok (w', log)) :
    (∀ L ∈ log, L.evResAbsent = true ∧ L.procsResAbsent = true) ∧
    w'.procs.isSome = true ∧
    (∀ t', alookup t' w'.eventQueues = alookup t' w.eventQueues) := by
  unfold update_event_listeners at h
  cases hps : w.procs with
  | none => simp only [hps] at h; exact Except.noConfusion h
  | some ps =>
      simp only [hps] at h
      cases hr : runProcessors { w with procs := none } ps with
      | error err => simp only [hr] at h; exact Except.noConfusion h
      | ok p =>
          obtain ⟨ps', w1, log1⟩ := p
          simp only [hr, Except.ok.injEq, Prod.mk.injEq] at h
          obtain ⟨hw, hlog⟩ := h
          subst hw
          subst hlog
          obtain ⟨hq, hN1, hp1, hf⟩ :=
            runProcessors_spec ps { w with procs := none } ps' w1 log1 hN hr
          refine ⟨fun L hL => (hf L hL), rfl, fun t' => hq t'⟩

/-- Witness for C10 at a concrete input: a driver pass over
`counterWorld 0 0 0 0 [3] 0`. -/
theorem c10_witness :
    (∀ L ∈ ([⟨0, 3, 0, 0, true, true, true⟩] : List LogEntry),
        L.evResAbsent = true ∧ L.procsResAbsent = true) ∧
    ({ counterWorld 0 0 3 0 [3] 0 with procs := some [(0, 1)] } : World).procs.isSome
        = true ∧
    (∀ t', alookup t'
        ({ counterWorld 0 0 3 0 [3] 0 with procs := some [(0, 1)] } : World).eventQueues
      = alookup t' (counterWorld 0 0 0 0 [3] 0).eventQueues) :=
  c10_resources_absent_during_dispatch_and_restored
    (counterWorld 0 0 0 0 [3] 0)
    { counterWorld 0 0 3 0 [3] 0 with procs := some [(0, 1)] }
    [⟨0, 3, 0, 0, true, true, true⟩] (by decide) rfl

end ELC
